import Mathlib

/-!
Verification of the SupaQuery retrieval pipeline.

This file gives a shallow embedding of the query-time pipeline of the
SupaQuery backend (`backend/app/services/`) and settles the frozen claims
about it.  Python strings are modelled as `List Char`; floating point
scores are modelled as rationals (`ℚ`); dictionaries passed between the
services are modelled as structures with the fields the embedded code
reads.  Calls into external systems (the Ollama LLM, the FAISS ANN
library, the BM25 library, the spaCy entity extractor, the sentence
splitter) are modelled as parameters of the embedded functions: the
embedding is faithful to what the repository's own code does with the
values those systems return.
-/

namespace SupaQuery

/-! ## Python string primitives

Python `str` is modelled as `List Char`.  The helpers below embed the
string operations the services use: `str.lower`, `str.strip`,
`str.split()` (whitespace words), `str.split('\n')`, `startswith`,
`endswith`, and the substring test `needle in hay`. -/

/-- Python `str.lower` (per character). -/
def pyLower (s : List Char) : List Char := s.map Char.toLower

/-- Python `str.strip()`: drop whitespace from both ends. -/
def pyStrip (s : List Char) : List Char :=
  ((s.dropWhile Char.isWhitespace).reverse.dropWhile Char.isWhitespace).reverse

/-- Helper for `pyWords`: fold from the right collecting maximal
whitespace-free runs. -/
def pyWordsStep (c : Char) (acc : List Char × List (List Char)) :
    List Char × List (List Char) :=
  if c.isWhitespace then ([], if acc.1.isEmpty then acc.2 else acc.1 :: acc.2)
  else (c :: acc.1, acc.2)

/-- Python `str.split()` with no argument: the list of maximal
non-whitespace runs (never contains an empty word). -/
def pyWords (s : List Char) : List (List Char) :=
  let p := s.foldr pyWordsStep ([], [])
  if p.1.isEmpty then p.2 else p.1 :: p.2

/-- Python `needle in hay` for strings: substring containment. -/
def containsSub (hay needle : List Char) : Bool :=
  match hay with
  | [] => needle.isEmpty
  | _ :: t => needle.isPrefixOf hay || containsSub t needle

/-- Python `str.split('\n')`. -/
def pyLines (s : List Char) : List (List Char) := s.splitOn '\n'

/-! ## EvaluationAgent (`evaluation_agent.py`)

`EvaluationAgent.evaluate_answer` computes three sub-scores
(quality, completeness, relevance) through LLM calls with heuristic
fallbacks, then aggregates them.  The aggregation — the part the claims
are about — is embedded below, parameterised by the three sub-scores. -/

/-- `self.quality_threshold = 0.7` from `EvaluationAgent.__init__`. -/
def quality_threshold : ℚ := 7/10

/-- The evaluation record built by `EvaluationAgent.evaluate_answer`
(the fields the pipeline reads). -/
structure AnswerEvaluation where
  is_sufficient : Bool
  overall_score : ℚ
  quality_score : ℚ
  completeness_score : ℚ
  relevance_score : ℚ
  deriving Repr, DecidableEq

/-- `EvaluationAgent.evaluate_answer`, parameterised by the three
sub-scores its LLM-backed scorers produced:
`overall_score = (quality + completeness + relevance) / 3` and
`is_sufficient = overall_score >= self.quality_threshold`. -/
def evaluate_answer (quality_score completeness_score relevance_score : ℚ) :
    AnswerEvaluation :=
  let overall_score := (quality_score + completeness_score + relevance_score) / 3
  { is_sufficient := decide (overall_score ≥ quality_threshold)
    overall_score := overall_score
    quality_score := quality_score
    completeness_score := completeness_score
    relevance_score := relevance_score }

/-- The retry prescription returned by
`EvaluationAgent.get_retry_strategy`. -/
structure RetryStrategy where
  expand_search : Bool
  use_entities : Bool
  increase_top_k : Nat
  refine_query : Bool
  deriving Repr, DecidableEq

/-- `EvaluationAgent.get_retry_strategy`: start from
`{expand_search: False, use_entities: False, increase_top_k: 5,
refine_query: False}` and flip each field on its sub-score test. -/
def get_retry_strategy (evaluation : AnswerEvaluation) : RetryStrategy :=
  let s0 : RetryStrategy :=
    { expand_search := false, use_entities := false,
      increase_top_k := 5, refine_query := false }
  let s1 := if evaluation.completeness_score < 6/10 then
    { s0 with expand_search := true, increase_top_k := 10 } else s0
  let s2 := if evaluation.relevance_score < 6/10 then
    { s1 with use_entities := true } else s1
  if evaluation.quality_score < 6/10 then { s2 with refine_query := true } else s2

/-! ## The retrieval/evaluation feedback loop
(`graph_rag_enhanced.py`, `EnhancedGraphRAGService.query`, lines 132-199)

The loop body retrieves, evaluates, keeps the best-scoring attempt
(strict `>`, so the earliest best), breaks when the evaluation says the
answer is sufficient, and otherwise increments `retry_count`.  After the
loop the response metadata reports `attempts = retry_count + 1`.  The
evaluation of attempt number `k` (0-based) is a parameter
`evalOf : Nat → AnswerEvaluation`. -/

/-- One execution of the `while retry_count <= self.max_retries` loop,
by fuel: `remaining` is the number of loop iterations the condition
still allows, `rc` is the current `retry_count`, `best` is the
best-scoring attempt so far as `(attempt index, overall_score)`.
Returns `(final retry_count, number of attempts performed, best)`. -/
def retrieveLoopGo (evalOf : Nat → AnswerEvaluation) :
    Nat → Nat → Option (Nat × ℚ) → Nat × Nat × Option (Nat × ℚ)
  | 0, rc, best => (rc, 0, best)
  | remaining + 1, rc, best =>
    let ev := evalOf rc
    let best2 : Option (Nat × ℚ) :=
      match best with
      | none => some (rc, ev.overall_score)
      | some (bi, bs) =>
        if ev.overall_score > bs then some (rc, ev.overall_score) else some (bi, bs)
    if ev.is_sufficient then (rc, 1, best2)
    else
      let out := retrieveLoopGo evalOf remaining (rc + 1) best2
      (out.1, out.2.1 + 1, out.2.2)

/-- Result of the retrieval loop: how many retrieval attempts ran, the
final `retry_count`, and which attempt's answer is returned. -/
structure RetrieveLoopOut where
  performed : Nat
  final_retry_count : Nat
  best_index : Nat
  best_score : ℚ
  deriving Repr, DecidableEq

/-- The `query` retry loop with budget `max_retries` (the service sets
`self.max_retries = 2`), starting from `retry_count = 0` and no best
answer. -/
def retrieveLoop (max_retries : Nat) (evalOf : Nat → AnswerEvaluation) :
    RetrieveLoopOut :=
  let out := retrieveLoopGo evalOf (max_retries + 1) 0 none
  { performed := out.2.1
    final_retry_count := out.1
    best_index := (out.2.2.map Prod.fst).getD 0
    best_score := (out.2.2.map Prod.snd).getD 0 }

/-- The `attempts` value placed in the evaluation metadata after the
loop: `"attempts": retry_count + 1` (line 196). -/
def reported_attempts (out : RetrieveLoopOut) : Nat := out.final_retry_count + 1

/-- Evaluation trace where the three attempts score 0.5, 0.6 and 0.65
overall (every sub-score equal), all below the 0.7 threshold. -/
def evalTraceAllLow : Nat → AnswerEvaluation := fun k =>
  let s : ℚ := if k = 0 then 1/2 else if k = 1 then 3/5 else 13/20
  evaluate_answer s s s

/-- Evaluation trace of the scenario in the claim: overall scores 0.5,
0.6, 0.75, so the third attempt is the first sufficient one. -/
def evalTraceSpec : Nat → AnswerEvaluation := fun k =>
  let s : ℚ := if k = 0 then 1/2 else if k = 1 then 3/5 else 3/4
  evaluate_answer s s s

/-- C1: evaluation of `EnhancedGraphRAGService.query`'s retry loop at the
failing input.  With evaluation overall scores 0.5, 0.6, 0.65 (never
sufficient under threshold 0.7) all `max_retries + 1 = 3` retrieval
attempts run, yet the metadata reports `attempts = retry_count + 1 = 4`:
the reported value does not equal the number of attempts performed, as
the claim requires.  In the claim's own scenario (scores 0.5, 0.6, 0.75)
the loop stops at the third, sufficient attempt, returns the
best-scoring third attempt and correctly reports `attempts = 3`. -/
theorem retrieve_loop_attempts_off_by_one :
    (retrieveLoop 2 evalTraceAllLow).performed = 3 ∧
    reported_attempts (retrieveLoop 2 evalTraceAllLow) = 4 ∧
    reported_attempts (retrieveLoop 2 evalTraceAllLow) ≠
      (retrieveLoop 2 evalTraceAllLow).performed ∧
    (retrieveLoop 2 evalTraceSpec).performed = 3 ∧
    reported_attempts (retrieveLoop 2 evalTraceSpec) = 3 ∧
    (retrieveLoop 2 evalTraceSpec).best_index = 2 := by
  norm_num [retrieveLoop, retrieveLoopGo, reported_attempts, evalTraceAllLow,
    evalTraceSpec, evaluate_answer, quality_threshold]

/-- C4: for every triple of sub-scores, `evaluate_answer` takes the
arithmetic mean as the overall score and judges the answer sufficient
exactly when that mean reaches the 0.7 quality threshold; the retry
prescription sets `expand_search` together with `increase_top_k = 10`
exactly when completeness < 0.6, `use_entities` exactly when
relevance < 0.6, and `refine_query` exactly when quality < 0.6. -/
theorem evaluate_answer_spec (q c r : ℚ) :
    (evaluate_answer q c r).overall_score = (q + c + r) / 3 ∧
    ((evaluate_answer q c r).is_sufficient = true ↔ (q + c + r) / 3 ≥ 7/10) ∧
    ((get_retry_strategy (evaluate_answer q c r)).expand_search = true ∧
      (get_retry_strategy (evaluate_answer q c r)).increase_top_k = 10 ↔ c < 6/10) ∧
    ((get_retry_strategy (evaluate_answer q c r)).use_entities = true ↔ r < 6/10) ∧
    ((get_retry_strategy (evaluate_answer q c r)).refine_query = true ↔ q < 6/10) := by
  refine ⟨rfl, by simp [evaluate_answer, quality_threshold], ?_, ?_, ?_⟩ <;>
    by_cases hc : c < 6/10 <;> by_cases hr : r < 6/10 <;> by_cases hq : q < 6/10 <;>
      simp [get_retry_strategy, evaluate_answer, hc, hr, hq]

/-! ## Routing (`graph_rag_enhanced.py` lines 475-498 and
`graph_rag_v2.py` lines 228-259, `_determine_query_strategy`)

Both services return one of the strategy strings
`'direct_reply' | 'clarify' | 'retrieve'`; they are modelled as an
inductive type. -/

inductive QueryStrategy where
  | direct_reply
  | clarify
  | retrieve
  deriving Repr, DecidableEq

/-- `greetings` list of the enhanced router. -/
def enhancedGreetings : List (List Char) :=
  ["hi", "hello", "hey", "good morning", "good afternoon"].map String.data

/-- `acknowledgments` list of the enhanced router. -/
def enhancedAcknowledgments : List (List Char) :=
  ["thanks", "thank you", "ok", "okay", "bye", "goodbye"].map String.data

/-- `meta_questions` list of the enhanced router. -/
def enhancedMetaQuestions : List (List Char) :=
  ["what can you do", "how do you work", "help", "what are you"].map String.data

/-- `vague_terms` list of the enhanced router. -/
def enhancedVagueTerms : List (List Char) :=
  ["it", "that", "this", "them", "more"].map String.data

/-- `EnhancedGraphRAGService._determine_query_strategy` (the `stats`
argument is never read by this variant).  Note the greeting test is
`q_lower.startswith(g)` on the whole question. -/
def determine_query_strategy_enhanced (query : List Char) : QueryStrategy :=
  let q_lower := pyStrip (pyLower query)
  if enhancedGreetings.any (fun g => g.isPrefixOf q_lower) then .direct_reply
  else if enhancedAcknowledgments.any (fun a => a == q_lower) then .direct_reply
  else if enhancedMetaQuestions.any (fun m => containsSub q_lower m) then .direct_reply
  else if enhancedVagueTerms.any (fun v => v == q_lower) || q_lower.length < 5 then
    .clarify
  else .retrieve

/-- `greetings` list of the v2 router. -/
def v2Greetings : List (List Char) := ["hi", "hello", "hey", "greetings"].map String.data

/-- The explicit greeting-with-punctuation list of the v2 router. -/
def v2GreetingPhrases : List (List Char) :=
  ["hi!", "hello!", "hey!", "hey there", "hi there", "hello there"].map String.data

/-- `meta_patterns` list of the v2 router. -/
def v2MetaPatterns : List (List Char) :=
  ["what can you", "what do you", "who are you", "what are you",
    "how do you work", "what is your purpose", "help"].map String.data

/-- Acknowledgment list of the v2 router. -/
def v2Acknowledgments : List (List Char) :=
  ["thanks", "thank you", "ok", "okay", "got it", "understood"].map String.data

/-- `GraphRAGService._determine_query_strategy` of `graph_rag_v2.py`:
a greeting must be the whole (lowered, stripped) question or its single
word; clarification needs `< 3` words in the raw question and more than
one document. -/
def determine_query_strategy_v2 (query : List Char) (documents : Nat) : QueryStrategy :=
  let query_lower := pyStrip (pyLower query)
  let first_word := (pyWords query_lower).headD query_lower
  if v2Greetings.any (fun g => g == query_lower) ||
      (v2Greetings.any (fun g => g == first_word) &&
        (pyWords query_lower).length == 1) then .direct_reply
  else if v2GreetingPhrases.any (fun g => g == query_lower) then .direct_reply
  else if v2MetaPatterns.any (fun p => containsSub query_lower p) then .direct_reply
  else if v2Acknowledgments.any (fun a => a == query_lower) then .direct_reply
  else if (pyWords query).length < 3 && 1 < documents then .clarify
  else .retrieve

/-- The `direct_reply` condition actually implemented by the enhanced
router: the lowered question starts with a greeting string, or equals an
acknowledgment, or contains a meta-question substring. -/
def enhancedDirectCond (query : List Char) : Bool :=
  let q_lower := pyStrip (pyLower query)
  enhancedGreetings.any (fun g => g.isPrefixOf q_lower) ||
    enhancedAcknowledgments.any (fun a => a == q_lower) ||
    enhancedMetaQuestions.any (fun m => containsSub q_lower m)

/-- The `clarify` condition actually implemented by the enhanced router:
the lowered question is a vague term, or is shorter than 5 characters. -/
def enhancedClarifyCond (query : List Char) : Bool :=
  let q_lower := pyStrip (pyLower query)
  enhancedVagueTerms.any (fun v => v == q_lower) || q_lower.length < 5

/-- The `direct_reply` condition actually implemented by the v2 router. -/
def v2DirectCond (query : List Char) : Bool :=
  let query_lower := pyStrip (pyLower query)
  let first_word := (pyWords query_lower).headD query_lower
  v2Greetings.any (fun g => g == query_lower) ||
    (v2Greetings.any (fun g => g == first_word) &&
      (pyWords query_lower).length == 1) ||
    v2GreetingPhrases.any (fun g => g == query_lower) ||
    v2MetaPatterns.any (fun p => containsSub query_lower p) ||
    v2Acknowledgments.any (fun a => a == query_lower)

/-- C2 counterexample: the question "history of france" has 3 words and
its first word "history" is not in the greeting set, so by the claim it
must be routed to `retrieve`; the enhanced router routes it to
`direct_reply`, because `q_lower.startswith('hi')` holds for the whole
string. -/
theorem routing_greeting_prefix_counterexample :
    determine_query_strategy_enhanced ("history of france").data =
      QueryStrategy.direct_reply ∧
    (pyWords ("history of france").data).length = 3 ∧
    (pyWords ("history of france").data).head? = some ("history").data ∧
    ("history").data ∉ enhancedGreetings ∧
    ("history of france").data ∉ enhancedAcknowledgments ∧
    enhancedMetaQuestions.all
      (fun m => !(containsSub ("history of france").data m)) = true := by
  decide

/-- Helper: outcome of a routing cascade with three direct-reply tests
and one clarify test. -/
theorem routeCascade4 (b1 b2 b3 b4 : Bool) :
    ((if b1 then QueryStrategy.direct_reply
      else if b2 then QueryStrategy.direct_reply
      else if b3 then QueryStrategy.direct_reply
      else if b4 then QueryStrategy.clarify
      else QueryStrategy.retrieve) = QueryStrategy.direct_reply ↔
      (b1 || b2 || b3) = true) ∧
    ((if b1 then QueryStrategy.direct_reply
      else if b2 then QueryStrategy.direct_reply
      else if b3 then QueryStrategy.direct_reply
      else if b4 then QueryStrategy.clarify
      else QueryStrategy.retrieve) = QueryStrategy.clarify ↔
      (b1 || b2 || b3) = false ∧ b4 = true) ∧
    ((if b1 then QueryStrategy.direct_reply
      else if b2 then QueryStrategy.direct_reply
      else if b3 then QueryStrategy.direct_reply
      else if b4 then QueryStrategy.clarify
      else QueryStrategy.retrieve) = QueryStrategy.retrieve ↔
      (b1 || b2 || b3) = false ∧ b4 = false) := by
  cases b1 <;> cases b2 <;> cases b3 <;> cases b4 <;> simp

/-- Helper: outcome of a routing cascade with four direct-reply tests
and one clarify test. -/
theorem routeCascade5 (b1 b2 b3 b4 b5 : Bool) :
    ((if b1 then QueryStrategy.direct_reply
      else if b2 then QueryStrategy.direct_reply
      else if b3 then QueryStrategy.direct_reply
      else if b4 then QueryStrategy.direct_reply
      else if b5 then QueryStrategy.clarify
      else QueryStrategy.retrieve) = QueryStrategy.direct_reply ↔
      (b1 || b2 || b3 || b4) = true) ∧
    ((if b1 then QueryStrategy.direct_reply
      else if b2 then QueryStrategy.direct_reply
      else if b3 then QueryStrategy.direct_reply
      else if b4 then QueryStrategy.direct_reply
      else if b5 then QueryStrategy.clarify
      else QueryStrategy.retrieve) = QueryStrategy.clarify ↔
      (b1 || b2 || b3 || b4) = false ∧ b5 = true) ∧
    ((if b1 then QueryStrategy.direct_reply
      else if b2 then QueryStrategy.direct_reply
      else if b3 then QueryStrategy.direct_reply
      else if b4 then QueryStrategy.direct_reply
      else if b5 then QueryStrategy.clarify
      else QueryStrategy.retrieve) = QueryStrategy.retrieve ↔
      (b1 || b2 || b3 || b4) = false ∧ b5 = false) := by
  cases b1 <;> cases b2 <;> cases b3 <;> cases b4 <;> cases b5 <;> simp

/-- C2 amended: the actual routing rules.  The enhanced router returns
`direct_reply` iff the lowered question starts with a greeting string,
equals an acknowledgment, or contains a meta-question substring;
`clarify` iff it is not a direct reply and the lowered question is a
vague term or shorter than 5 characters (the document count is ignored);
`retrieve` otherwise.  The v2 router returns `direct_reply` iff the
lowered question is a greeting, a one-word greeting, a listed greeting
phrase, contains a meta pattern, or is an acknowledgment; `clarify` iff
it is not a direct reply, the question has fewer than 3 words and more
than one document exists; `retrieve` otherwise. -/
theorem determine_query_strategy_characterization (query : List Char) (documents : Nat) :
    (determine_query_strategy_enhanced query = QueryStrategy.direct_reply ↔
      enhancedDirectCond query = true) ∧
    (determine_query_strategy_enhanced query = QueryStrategy.clarify ↔
      enhancedDirectCond query = false ∧ enhancedClarifyCond query = true) ∧
    (determine_query_strategy_enhanced query = QueryStrategy.retrieve ↔
      enhancedDirectCond query = false ∧ enhancedClarifyCond query = false) ∧
    (determine_query_strategy_v2 query documents = QueryStrategy.direct_reply ↔
      v2DirectCond query = true) ∧
    (determine_query_strategy_v2 query documents = QueryStrategy.clarify ↔
      v2DirectCond query = false ∧
        ((pyWords query).length < 3 ∧ 1 < documents)) ∧
    (determine_query_strategy_v2 query documents = QueryStrategy.retrieve ↔
      v2DirectCond query = false ∧
        ¬((pyWords query).length < 3 ∧ 1 < documents)) := by
  simp only [determine_query_strategy_enhanced, determine_query_strategy_v2,
    enhancedDirectCond, enhancedClarifyCond, v2DirectCond]
  refine ⟨(routeCascade4 _ _ _ _).1, (routeCascade4 _ _ _ _).2.1,
    (routeCascade4 _ _ _ _).2.2, (routeCascade5 _ _ _ _ _).1, ?_, ?_⟩
  · rw [(routeCascade5 _ _ _ _ _).2.1]
    simp
  · rw [(routeCascade5 _ _ _ _ _).2.2]
    simp

/-! ## The no-documents short circuit
(`graph_rag_enhanced.py`, `EnhancedGraphRAGService.query`, lines 84-96)

`query` first reads the graph stats and, when `stats['documents'] == 0`
and no document filter was supplied (`not document_ids`), returns the
stock envelope immediately — before classification, retrieval or any
LLM call.  The rest of `query` is abstracted as a continuation, which
the embedded guard either invokes or does not. -/

/-- A citation entry of a response envelope (`_format_citations`). -/
structure CitationRecord where
  text : List Char
  source : List Char
  doc_id : List Char
  chunk_id : List Char
  deriving Repr, DecidableEq

/-- A source entry of a response envelope (`_format_sources`). -/
structure SourceRecord where
  filename : List Char
  deriving Repr, DecidableEq

/-- An entity entry of a response envelope. -/
structure EntityRecord where
  name : List Char
  entity_type : List Char
  deriving Repr, DecidableEq

/-- The strategy marker of a response envelope: the router strategies
plus the `"no_documents"` marker of the empty-corpus envelope. -/
inductive StrategyMarker where
  | direct_reply
  | clarify
  | retrieve
  | no_documents
  deriving Repr, DecidableEq

/-- The response envelope shaped by `EnhancedGraphRAGService.query`. -/
structure QueryEnvelope where
  answer : List Char
  citations : List CitationRecord
  sources : List SourceRecord
  entities : List EntityRecord
  query : List Char
  strategy : StrategyMarker
  deriving Repr, DecidableEq

/-- How many retrieval passes and LLM generation calls a run of `query`
made. -/
structure PipelineEffects where
  retrievals : Nat
  llm_calls : Nat
  deriving Repr, DecidableEq

/-- The stock empty-corpus envelope returned at lines 89-96. -/
def no_documents_envelope (query : List Char) : QueryEnvelope :=
  { answer := ("No documents uploaded yet. Please upload a document to get started.").data
    citations := []
    sources := []
    entities := []
    query := query
    strategy := .no_documents }

/-- Python truthiness of the `document_ids` argument: `not document_ids`
holds for `None` and for the empty list. -/
def pyFalsyList {α : Type} : Option (List α) → Bool
  | none => true
  | some l => l.isEmpty

/-- The guard at the top of `EnhancedGraphRAGService.query`:
`if stats['documents'] == 0 and not document_ids: return {...}`.
`cont` is the remainder of `query` (classification, routing, the
retrieval loop), which reports the effects it performed. -/
def enhanced_query_entry (documents : Nat)
    (document_ids : Option (List (List Char))) (query : List Char)
    (cont : Unit → QueryEnvelope × PipelineEffects) :
    QueryEnvelope × PipelineEffects :=
  if documents = 0 && pyFalsyList document_ids then
    (no_documents_envelope query, { retrievals := 0, llm_calls := 0 })
  else cont ()

/-- C8: when the graph store reports zero documents and no document
filter is supplied (`None`, or an empty list), `query` returns the stock
no-documents envelope — empty citations, sources and entities, strategy
marker `no_documents` — without invoking the rest of the pipeline, so no
retrieval and no LLM call happen. -/
theorem no_documents_short_circuit (query : List Char)
    (cont : Unit → QueryEnvelope × PipelineEffects) :
    enhanced_query_entry 0 none query cont =
      (no_documents_envelope query, { retrievals := 0, llm_calls := 0 }) ∧
    enhanced_query_entry 0 (some []) query cont =
      (no_documents_envelope query, { retrievals := 0, llm_calls := 0 }) ∧
    (no_documents_envelope query).strategy = StrategyMarker.no_documents ∧
    (no_documents_envelope query).citations = [] ∧
    (no_documents_envelope query).sources = [] ∧
    (no_documents_envelope query).entities = [] ∧
    (no_documents_envelope query).answer =
      ("No documents uploaded yet. Please upload a document to get started.").data := by
  exact ⟨rfl, rfl, rfl, rfl, rfl, rfl, rfl⟩

/-! ## Vector index persistence (`faiss_reranker_service.py`,
`FAISSRerankerService._save_index`, lines 298-309)

`_save_index` calls `faiss.write_index(self.index, str(self.index_path))`
and then `pickle.dump(self.chunk_metadata, f)` on the opened
`self.metadata_path` — two direct writes to the destination paths.  The
file-system interaction is embedded as a trace of operations; executing
a trace may be interrupted during any single operation, in which case an
in-progress `write` leaves a truncated file at its path. -/

/-- A file-system operation: a plain write of (serialized) data to a
path, or an atomic rename. -/
inductive FsOp where
  | write (path : String) (data : Nat)
  | rename (src dst : String)
  deriving Repr, DecidableEq

/-- What a path can hold after executing operations: completely written
data, or the truncated leftovers of an interrupted write. -/
inductive FileContent where
  | full (data : Nat)
  | truncated (data : Nat)
  deriving Repr, DecidableEq

/-- File-system state: newest entry for a path shadows older ones. -/
def getFile (fs : List (String × FileContent)) (p : String) : Option FileContent :=
  (fs.find? (fun e => e.1 == p)).map Prod.snd

/-- Record new content for a path. -/
def setFile (fs : List (String × FileContent)) (p : String) (c : FileContent) :
    List (String × FileContent) :=
  (p, c) :: fs

/-- Effect of one completed operation. -/
def applyFsOp (fs : List (String × FileContent)) : FsOp → List (String × FileContent)
  | .write p d => setFile fs p (.full d)
  | .rename src dst =>
    match getFile fs src with
    | none => fs
    | some c => setFile fs dst c

/-- Execute a trace starting at operation index `i`; `stopAt = some j`
interrupts execution during operation `j`: an interrupted `write` leaves
a truncated file, an interrupted `rename` is atomic and leaves the state
unchanged. -/
def execFsFrom (i : Nat) (stopAt : Option Nat) :
    List FsOp → List (String × FileContent) → List (String × FileContent)
  | [], fs => fs
  | op :: rest, fs =>
    if stopAt = some i then
      match op with
      | .write p d => setFile fs p (.truncated d)
      | .rename _ _ => fs
    else execFsFrom (i + 1) stopAt rest (applyFsOp fs op)

/-- Execute a trace from its first operation. -/
def execFs (ops : List FsOp) (stopAt : Option Nat)
    (fs : List (String × FileContent)) : List (String × FileContent) :=
  execFsFrom 0 stopAt ops fs

/-- The trace of `FAISSRerankerService._save_index`: write the serialized
index to `self.index_path`, then write the pickled metadata to
`self.metadata_path`.  No temporary file, no rename. -/
def save_index_ops (index_path metadata_path : String)
    (index_data metadata_data : Nat) : List FsOp :=
  [.write index_path index_data, .write metadata_path metadata_data]

/-- Does the operation write directly to its (final) path? -/
def isDirectWrite : FsOp → Bool
  | .write _ _ => true
  | .rename _ _ => false

/-- C9 counterexample: `_save_index` contains only direct writes to the
final paths (no rename at all), and an interruption during its first
operation leaves a truncated — partially written — index file at the
final index path, contradicting the claimed temp-file-then-rename
atomicity. -/
theorem save_index_not_atomic :
    (save_index_ops "faiss_index.bin" "faiss_metadata.pkl" 1 2).all
      isDirectWrite = true ∧
    getFile
      (execFs (save_index_ops "faiss_index.bin" "faiss_metadata.pkl" 1 2)
        (some 0) [])
      "faiss_index.bin" = some (FileContent.truncated 1) := by
  exact ⟨rfl, rfl⟩

/-- C9 amended: `_save_index` performs two direct destination writes
(index first, then metadata) with no temporary file or rename.  A run
that completes leaves the new full contents at both destination paths,
but a run interrupted during the first write leaves a truncated index
file at the final path, so persistence is not atomic. -/
theorem save_index_direct_writes (p q : String) (d m : Nat)
    (fs₀ : List (String × FileContent)) (hpq : p ≠ q) :
    getFile (execFs (save_index_ops p q d m) none fs₀) p =
      some (FileContent.full d) ∧
    getFile (execFs (save_index_ops p q d m) none fs₀) q =
      some (FileContent.full m) ∧
    getFile (execFs (save_index_ops p q d m) (some 0) fs₀) p =
      some (FileContent.truncated d) ∧
    (save_index_ops p q d m).all isDirectWrite = true := by
  have hq : (q == p) = false := beq_eq_false_iff_ne.mpr (Ne.symm hpq)
  refine ⟨?_, ?_, ?_, ?_⟩ <;>
    simp [execFs, execFsFrom, applyFsOp, setFile, getFile, save_index_ops,
      isDirectWrite, List.find?, hq]

/-- Witness for `save_index_direct_writes` at the service's actual file
names. -/
theorem save_index_direct_writes_witness :
    getFile
      (execFs (save_index_ops "faiss_index.bin" "faiss_metadata.pkl" 3 4) none [])
      "faiss_index.bin" = some (FileContent.full 3) := by
  exact (save_index_direct_writes "faiss_index.bin" "faiss_metadata.pkl" 3 4 []
    (by decide)).1

/-! ## Vector index bookkeeping (`faiss_reranker_service.py`,
`add_chunks` lines 67-107, `delete_document` lines 255-289,
`clear_index` lines 291-296, `get_stats` lines 329-336)

The mutable state of `FAISSRerankerService` is the pair of the FAISS
index (modelled by its vector count `ntotal`; `add` appends one vector
per encoded text) and the parallel `chunk_metadata` list. -/

/-- A `chunk_metadata` entry: `{text, doc_id, chunk_id, source, citation}`. -/
structure ChunkMeta where
  text : String
  doc_id : String
  chunk_id : String
  source : String
  citation : String
  deriving Repr, DecidableEq

/-- The FAISS service state: `self.index.ntotal` and
`self.chunk_metadata`. -/
structure FaissState where
  ntotal : Nat
  chunk_metadata : List ChunkMeta
  deriving Repr, DecidableEq

/-- `FAISSRerankerService.add_chunks`: on an empty batch return
immediately; otherwise encode one embedding per chunk, `index.add` them
(`ntotal` grows by the batch size) and append one metadata entry per
chunk. -/
def add_chunks (st : FaissState) (chunks : List ChunkMeta) : FaissState :=
  if chunks.isEmpty then st
  else { ntotal := st.ntotal + chunks.length
         chunk_metadata := st.chunk_metadata ++ chunks }

/-- `FAISSRerankerService.delete_document`: keep the metadata whose
`doc_id` differs; if nothing was removed, return unchanged (the method
returns `False`); otherwise rebuild a fresh index and re-add the
remaining chunks. -/
def delete_document (st : FaissState) (doc_id : String) : FaissState :=
  if (st.chunk_metadata.filter (fun c => c.doc_id ≠ doc_id)).length =
      st.chunk_metadata.length then st
  else add_chunks { ntotal := 0, chunk_metadata := [] }
    (st.chunk_metadata.filter (fun c => c.doc_id ≠ doc_id))

/-- `FAISSRerankerService.clear_index`: fresh empty index and metadata. -/
def clear_index (_ : FaissState) : FaissState :=
  { ntotal := 0, chunk_metadata := [] }

/-- A mutation of the FAISS service state. -/
inductive FaissOp where
  | add (chunks : List ChunkMeta)
  | delete (doc_id : String)
  | clear
  deriving Repr

/-- Apply one mutation. -/
def applyFaissOp (st : FaissState) : FaissOp → FaissState
  | .add chunks => add_chunks st chunks
  | .delete doc_id => delete_document st doc_id
  | .clear => clear_index st

/-- Run a sequence of mutations from the freshly created service state
(empty index, empty metadata). -/
def runFaissOps (ops : List FaissOp) : FaissState :=
  ops.foldl applyFaissOp { ntotal := 0, chunk_metadata := [] }

/-- `self.embedding_dim = 384`. -/
def embedding_dim : Nat := 384

/-- The record returned by `FAISSRerankerService.get_stats`. -/
structure FaissStats where
  total_vectors : Nat
  dimension : Nat
  total_chunks : Nat
  unique_documents : Nat
  deriving Repr, DecidableEq

/-- `FAISSRerankerService.get_stats`. -/
def get_stats (st : FaissState) : FaissStats :=
  { total_vectors := st.ntotal
    dimension := embedding_dim
    total_chunks := st.chunk_metadata.length
    unique_documents := (st.chunk_metadata.map (fun c => c.doc_id)).dedup.length }

/-- Each FAISS mutation preserves `ntotal = |chunk_metadata|`. -/
theorem applyFaissOp_preserves_parallel (st : FaissState) (op : FaissOp)
    (h : st.ntotal = st.chunk_metadata.length) :
    (applyFaissOp st op).ntotal = (applyFaissOp st op).chunk_metadata.length := by
  cases op with
  | add chunks =>
    simp only [applyFaissOp, add_chunks]
    split
    · exact h
    · simp [h]
  | delete doc_id =>
    simp only [applyFaissOp, delete_document]
    split
    · exact h
    · simp only [add_chunks]
      split
      · rfl
      · simp
  | clear => rfl

/-- C10: after any sequence of `add_chunks`, `delete_document` and
`clear_index` operations starting from the fresh service state, the
number of vectors in the FAISS index equals the length of the parallel
`chunk_metadata` list, and `get_stats` reports `total_vectors` equal to
`total_chunks` (so every index position below `ntotal` resolves to a
metadata entry). -/
theorem faiss_index_metadata_parallel (ops : List FaissOp) :
    (runFaissOps ops).ntotal = (runFaissOps ops).chunk_metadata.length ∧
    (get_stats (runFaissOps ops)).total_vectors =
      (get_stats (runFaissOps ops)).total_chunks := by
  have key : ∀ (st : FaissState), st.ntotal = st.chunk_metadata.length →
      (ops.foldl applyFaissOp st).ntotal =
        (ops.foldl applyFaissOp st).chunk_metadata.length := by
    induction ops with
    | nil => intro st h; exact h
    | cons op rest ih =>
      intro st h
      exact ih (applyFaissOp st op) (applyFaissOp_preserves_parallel st op h)
  have h := key { ntotal := 0, chunk_metadata := [] } rfl
  exact ⟨h, h⟩

/-! ## Multi-query generation (`multi_query_generator.py`,
`MultiQueryGenerator.generate_queries` lines 22-63 and
`_parse_generated_queries` lines 107-131)

The LLM call is modelled by its outcome: `some text` for a successful
generation, `none` when `_call_ollama` raises. -/

/-- The prefix list stripped from each line:
`['1.', '2.', '3.', '4.', '5.', '-', '*', '•']`. -/
def query_line_prefixes : List (List Char) :=
  ["1.", "2.", "3.", "4.", "5.", "-", "*", "•"].map String.data

/-- The prefix-removal loop of `_parse_generated_queries`: each prefix is
tested once, in order, against the evolving `cleaned` line. -/
def strip_line_prefixes (cleaned : List Char) : List Char :=
  query_line_prefixes.foldl
    (fun cl p => if p.isPrefixOf cl then pyStrip (cl.drop p.length) else cl) cleaned

/-- The quote-removal step of `_parse_generated_queries`: strip one pair
of surrounding double quotes, then one pair of surrounding single
quotes. -/
def strip_surrounding_quotes (cleaned : List Char) : List Char :=
  let dq : Char := Char.ofNat 34
  let sq : Char := Char.ofNat 39
  let c1 := if cleaned.head? = some dq ∧ cleaned.getLast? = some dq then
    (cleaned.drop 1).dropLast else cleaned
  if c1.head? = some sq ∧ c1.getLast? = some sq then (c1.drop 1).dropLast else c1

/-- `MultiQueryGenerator._parse_generated_queries`: split the stripped
LLM output into lines, clean each line, and keep the non-empty results
longer than 10 characters. -/
def parse_generated_queries (generated_text : List Char) : List (List Char) :=
  (pyLines (pyStrip generated_text)).filterMap (fun line =>
    let cleaned := strip_surrounding_quotes (strip_line_prefixes (pyStrip line))
    if cleaned ≠ [] ∧ 10 < cleaned.length then some cleaned else none)

/-- The deduplicating accumulation loop of `generate_queries`:
`if variation and variation not in queries: queries.append(variation)`. -/
def append_query_variation (qs : List (List Char)) (v : List Char) : List (List Char) :=
  if v ≠ [] ∧ v ∉ qs then qs ++ [v] else qs

/-- `MultiQueryGenerator.generate_queries`, parameterised by the LLM
outcome: on failure return `[original_query]`; otherwise parse the
generated text, append non-duplicate variations after the original, and
truncate to `num_queries + 1` entries. -/
def generate_queries (original_query : List Char) (num_queries : Nat)
    (llm_response : Option (List Char)) : List (List Char) :=
  match llm_response with
  | none => [original_query]
  | some generated_text =>
    ((parse_generated_queries generated_text).foldl append_query_variation
      [original_query]).take (num_queries + 1)

/-- Every entry kept by `_parse_generated_queries` is non-empty and
longer than 10 characters. -/
theorem parse_generated_queries_length (generated_text : List Char)
    (v : List Char) (hv : v ∈ parse_generated_queries generated_text) :
    v ≠ [] ∧ 10 < v.length := by
  simp only [parse_generated_queries, List.mem_filterMap] at hv
  obtain ⟨line, -, hline⟩ := hv
  by_cases hc :
      strip_surrounding_quotes (strip_line_prefixes (pyStrip line)) ≠ [] ∧
        10 < (strip_surrounding_quotes (strip_line_prefixes (pyStrip line))).length
  · rw [if_pos hc] at hline
    cases hline
    exact hc
  · rw [if_neg hc] at hline
    cases hline

/-- Invariant of the deduplicating fold: starting from `q :: t` every
run keeps `q` first, stays duplicate-free, and only appends members of
the variation list that differ from everything before them. -/
theorem append_query_variation_fold_spec (S : List (List Char)) (q : List Char) :
    ∀ (vs t : List (List Char)), (∀ v ∈ vs, v ∈ S) → (q :: t).Nodup →
      (∀ v ∈ t, v ∈ S ∧ v ≠ q) →
      ∃ t2, vs.foldl append_query_variation (q :: t) = q :: t2 ∧
        (q :: t2).Nodup ∧ ∀ v ∈ t2, v ∈ S ∧ v ≠ q := by
  intro vs
  induction vs with
  | nil =>
    intro t _ hnd ht
    exact ⟨t, rfl, hnd, ht⟩
  | cons v rest ih =>
    intro t hvs hnd ht
    by_cases hcond : v ≠ [] ∧ v ∉ q :: t
    · have hstep : append_query_variation (q :: t) v = q :: (t ++ [v]) := by
        simp [append_query_variation, hcond]
      have hnd2 : (q :: (t ++ [v])).Nodup := by
        have : ((q :: t) ++ [v]).Nodup := by
          rw [List.nodup_append]
          refine ⟨hnd, List.nodup_singleton v, ?_⟩
          intro x hx hx1
          rw [List.mem_singleton] at hx1
          subst hx1
          exact hcond.2 hx
        simpa using this
      have ht2 : ∀ w ∈ t ++ [v], w ∈ S ∧ w ≠ q := by
        intro w hw
        rcases List.mem_append.mp hw with hw | hw
        · exact ht w hw
        · rw [List.mem_singleton] at hw
          subst hw
          refine ⟨hvs w (List.mem_cons_self _ _), ?_⟩
          intro hwq
          exact hcond.2 (hwq ▸ List.mem_cons_self _ _)
      have := ih (t ++ [v]) (fun w hw => hvs w (List.mem_cons_of_mem _ hw)) hnd2 ht2
      simpa [List.foldl_cons, hstep] using this
    · have hstep : append_query_variation (q :: t) v = q :: t := by
        simp only [append_query_variation]
        rw [if_neg hcond]
      have := ih t (fun w hw => hvs w (List.mem_cons_of_mem _ hw)) hnd ht
      simpa [List.foldl_cons, hstep] using this

/-- C7: `generate_queries` returns at most `num_queries + 1` queries with
the original question first; every other entry is a parsed (cleaned)
line of the LLM output, is distinct from the original and from every
other entry, and is longer than 10 characters (hence at least 10
characters long); on LLM failure the result is exactly
`[original_query]`. -/
theorem generate_queries_spec (original_query : List Char) (num_queries : Nat)
    (llm_response : Option (List Char)) :
    generate_queries original_query num_queries none = [original_query] ∧
    (generate_queries original_query num_queries llm_response).length ≤
      num_queries + 1 ∧
    (generate_queries original_query num_queries llm_response).head? =
      some original_query ∧
    (generate_queries original_query num_queries llm_response).Nodup ∧
    ∀ v ∈ (generate_queries original_query num_queries llm_response).tail,
      v ∈ parse_generated_queries (llm_response.getD []) ∧
        v ≠ original_query ∧ 10 < v.length := by
  refine ⟨rfl, ?_⟩
  cases llm_response with
  | none =>
    refine ⟨by simp [generate_queries], by simp [generate_queries],
      by simp [generate_queries], ?_⟩
    intro v hv
    simp [generate_queries] at hv
  | some generated_text =>
    obtain ⟨t2, hfold, hnd, ht2⟩ :=
      append_query_variation_fold_spec (parse_generated_queries generated_text)
        original_query (parse_generated_queries generated_text) []
        (fun v hv => hv) (List.nodup_singleton _) (by simp)
    have hres : generate_queries original_query num_queries (some generated_text) =
        original_query :: t2.take num_queries := by
      simp only [generate_queries, hfold, List.take_succ_cons]
    refine ⟨?_, ?_, ?_, ?_⟩
    · rw [hres]
      simp only [List.length_cons]
      exact Nat.succ_le_succ (List.length_take_le num_queries t2)
    · rw [hres]
      rfl
    · rw [hres]
      exact List.Nodup.sublist (List.Sublist.cons₂ _ (List.take_sublist _ _)) hnd
    · rw [hres]
      intro v hv
      rw [List.tail_cons] at hv
      have hv2 := ht2 v (List.Sublist.mem hv (List.take_sublist _ _))
      exact ⟨hv2.1, hv2.2, (parse_generated_queries_length _ v hv2.1).2⟩

/-- Witness for `generate_queries_spec`: on a concrete LLM output the
single kept variation is a parsed line, differs from the original and is
longer than 10 characters. -/
theorem generate_queries_spec_witness :
    ("a sufficiently long variation").data ∈
      parse_generated_queries
        ((some ("a sufficiently long variation").data).getD []) ∧
    ("a sufficiently long variation").data ≠ ("orig").data ∧
    10 < (("a sufficiently long variation").data).length :=
  (generate_queries_spec ("orig").data 2
    (some ("a sufficiently long variation").data)).2.2.2.2
    (("a sufficiently long variation").data) (by decide)

/-! ## Smart document filtering (`graph_rag_enhanced.py`,
`EnhancedGraphRAGService._apply_smart_document_filter`, lines 644-725)

The spaCy entity extraction on the query is modelled by its outcome: the
list of extracted entity names (`query_entities`). -/

/-- A retrieved chunk as seen by the smart filter (`chunk.get('source')`
and `chunk.get('text')`). -/
structure RagChunk where
  text : List Char
  source : List Char
  deriving Repr, DecidableEq

/-- The per-entity token test of the smart filter: some part (token) of
the lowered entity name is longer than 2 characters and occurs in the
lowered target string. -/
def entity_token_match (entity_names : List (List Char)) (target : List Char) : Bool :=
  entity_names.any (fun name =>
    (pyWords name).any (fun part =>
      decide (2 < part.length) && containsSub (pyLower target) part))

/-- One step of the `chunks_by_source` grouping loop: append the chunk
to its source's group, creating the group on first sight of the source
(Python dict insertion order). -/
def insert_by_source (groups : List (List Char × List RagChunk)) (c : RagChunk) :
    List (List Char × List RagChunk) :=
  if groups.any (fun g => g.1 = c.source) then
    groups.map (fun g => if g.1 = c.source then (g.1, g.2 ++ [c]) else g)
  else groups ++ [(c.source, [c])]

/-- The `chunks_by_source` dictionary of the smart filter, as an ordered
association list. -/
def chunks_by_source (chunks : List RagChunk) : List (List Char × List RagChunk) :=
  chunks.foldl insert_by_source []

/-- `EnhancedGraphRAGService._apply_smart_document_filter`: with no
chunks or no query entities return the chunks unchanged; otherwise keep
the chunks of the sources whose filename matches an entity token; if no
source matches, keep the chunks whose text matches; if that is also
empty, return the chunks unchanged. -/
def apply_smart_document_filter (query_entities : List (List Char))
    (chunks : List RagChunk) : List RagChunk :=
  if chunks.isEmpty then chunks
  else if query_entities.isEmpty then chunks
  else
    let entity_names := query_entities.map pyLower
    let matching := (chunks_by_source chunks).filter
      (fun g => entity_token_match entity_names g.1)
    if !matching.isEmpty then matching.flatMap Prod.snd
    else
      let content_matched := chunks.filter
        (fun c => entity_token_match entity_names c.text)
      if !content_matched.isEmpty then content_matched else chunks

/-- `insert_by_source` keeps groups non-empty and source-homogeneous,
and its groups hold exactly the old chunks plus the inserted one. -/
theorem insert_by_source_spec (groups : List (List Char × List RagChunk))
    (ch : RagChunk)
    (hne : ∀ g ∈ groups, g.2 ≠ [])
    (hsrc : ∀ g ∈ groups, ∀ c ∈ g.2, c.source = g.1) :
    (∀ g ∈ insert_by_source groups ch, g.2 ≠ []) ∧
    (∀ g ∈ insert_by_source groups ch, ∀ c ∈ g.2, c.source = g.1) ∧
    (∀ c, (∃ g ∈ insert_by_source groups ch, c ∈ g.2) ↔
      (∃ g ∈ groups, c ∈ g.2) ∨ c = ch) := by
  by_cases hany : groups.any (fun g => g.1 = ch.source)
  · have hex : ∃ g ∈ groups, g.1 = ch.source := by
      simpa using hany
    have hins : insert_by_source groups ch =
        groups.map (fun g => if g.1 = ch.source then (g.1, g.2 ++ [ch]) else g) := by
      simp only [insert_by_source, if_pos hany]
    refine ⟨?_, ?_, ?_⟩
    · intro g hg
      rw [hins] at hg
      obtain ⟨g0, hg0, hg0e⟩ := List.mem_map.mp hg
      by_cases h0 : g0.1 = ch.source
      · rw [if_pos h0] at hg0e
        subst hg0e
        simp
      · rw [if_neg h0] at hg0e
        subst hg0e
        exact hne g0 hg0
    · intro g hg c hc
      rw [hins] at hg
      obtain ⟨g0, hg0, hg0e⟩ := List.mem_map.mp hg
      by_cases h0 : g0.1 = ch.source
      · rw [if_pos h0] at hg0e
        subst hg0e
        rcases List.mem_append.mp hc with hc | hc
        · exact hsrc g0 hg0 c hc
        · rw [List.mem_singleton] at hc
          subst hc
          exact h0.symm
      · rw [if_neg h0] at hg0e
        subst hg0e
        exact hsrc g0 hg0 c hc
    · intro c
      rw [hins]
      constructor
      · rintro ⟨g, hg, hc⟩
        obtain ⟨g0, hg0, hg0e⟩ := List.mem_map.mp hg
        by_cases h0 : g0.1 = ch.source
        · rw [if_pos h0] at hg0e
          subst hg0e
          rcases List.mem_append.mp hc with hc | hc
          · exact Or.inl ⟨g0, hg0, hc⟩
          · rw [List.mem_singleton] at hc
            exact Or.inr hc
        · rw [if_neg h0] at hg0e
          subst hg0e
          exact Or.inl ⟨g0, hg0, hc⟩
      · rintro (⟨g, hg, hc⟩ | hc)
        · by_cases h0 : g.1 = ch.source
          · refine ⟨(g.1, g.2 ++ [ch]), List.mem_map.mpr ⟨g, hg, by rw [if_pos h0]⟩, ?_⟩
            exact List.mem_append.mpr (Or.inl hc)
          · exact ⟨g, List.mem_map.mpr ⟨g, hg, by rw [if_neg h0]⟩, hc⟩
        · obtain ⟨g0, hg0, hg0s⟩ := hex
          subst hc
          refine ⟨(g0.1, g0.2 ++ [c]), List.mem_map.mpr ⟨g0, hg0, ?_⟩, ?_⟩
          · rw [if_pos hg0s]
          · simp
  · have hins : insert_by_source groups ch = groups ++ [(ch.source, [ch])] := by
      simp only [insert_by_source, if_neg hany]
    refine ⟨?_, ?_, ?_⟩
    · intro g hg
      rw [hins] at hg
      rcases List.mem_append.mp hg with hg | hg
      · exact hne g hg
      · rw [List.mem_singleton] at hg
        subst hg
        simp
    · intro g hg c hc
      rw [hins] at hg
      rcases List.mem_append.mp hg with hg | hg
      · exact hsrc g hg c hc
      · rw [List.mem_singleton] at hg
        subst hg
        rw [List.mem_singleton] at hc
        subst hc
        rfl
    · intro c
      rw [hins]
      constructor
      · rintro ⟨g, hg, hc⟩
        rcases List.mem_append.mp hg with hg | hg
        · exact Or.inl ⟨g, hg, hc⟩
        · rw [List.mem_singleton] at hg
          subst hg
          rw [List.mem_singleton] at hc
          exact Or.inr hc
      · rintro (⟨g, hg, hc⟩ | hc)
        · exact ⟨g, List.mem_append.mpr (Or.inl hg), hc⟩
        · subst hc
          exact ⟨(c.source, [c]), List.mem_append.mpr (Or.inr (by simp)), by simp⟩

/-- The grouping of `_apply_smart_document_filter`: every group is
non-empty and source-homogeneous, and the groups hold exactly the input
chunks. -/
theorem chunks_by_source_spec (chunks : List RagChunk) :
    (∀ g ∈ chunks_by_source chunks, g.2 ≠ []) ∧
    (∀ g ∈ chunks_by_source chunks, ∀ c ∈ g.2, c.source = g.1) ∧
    (∀ c, (∃ g ∈ chunks_by_source chunks, c ∈ g.2) ↔ c ∈ chunks) := by
  have key : ∀ (rest : List RagChunk) (groups : List (List Char × List RagChunk)),
      (∀ g ∈ groups, g.2 ≠ []) →
      (∀ g ∈ groups, ∀ c ∈ g.2, c.source = g.1) →
      (∀ g ∈ rest.foldl insert_by_source groups, g.2 ≠ []) ∧
      (∀ g ∈ rest.foldl insert_by_source groups, ∀ c ∈ g.2, c.source = g.1) ∧
      (∀ c, (∃ g ∈ rest.foldl insert_by_source groups, c ∈ g.2) ↔
        (∃ g ∈ groups, c ∈ g.2) ∨ c ∈ rest) := by
    intro rest
    induction rest with
    | nil =>
      intro groups hne hsrc
      refine ⟨hne, hsrc, fun c => ?_⟩
      simp
    | cons ch rest ih =>
      intro groups hne hsrc
      obtain ⟨hne2, hsrc2, hmem2⟩ := insert_by_source_spec groups ch hne hsrc
      obtain ⟨hne3, hsrc3, hmem3⟩ := ih (insert_by_source groups ch) hne2 hsrc2
      refine ⟨hne3, hsrc3, fun c => ?_⟩
      rw [List.foldl_cons, hmem3 c, hmem2 c]
      simp only [List.mem_cons]
      constructor
      · rintro ((h | h) | h)
        · exact Or.inl h
        · exact Or.inr (Or.inl h)
        · exact Or.inr (Or.inr h)
      · rintro (h | h | h)
        · exact Or.inl (Or.inl h)
        · exact Or.inl (Or.inr h)
        · exact Or.inr h
  obtain ⟨h1, h2, h3⟩ := key chunks [] (by simp) (by simp)
  refine ⟨h1, h2, fun c => ?_⟩
  rw [chunks_by_source, h3 c]
  simp

/-- C6: on a non-empty candidate list the smart filter never returns an
empty list; with no extracted entities it returns the candidates
unchanged; when some candidate's source filename matches an entity token
it keeps exactly the candidates with a matching source; and when no
source matches it keeps the candidates whose text matches, or — if there
are none — the candidates unchanged. -/
theorem apply_smart_document_filter_spec (query_entities : List (List Char))
    (chunks : List RagChunk) :
    (chunks ≠ [] → apply_smart_document_filter query_entities chunks ≠ []) ∧
    (query_entities = [] → apply_smart_document_filter query_entities chunks = chunks) ∧
    ((∃ c ∈ chunks, entity_token_match (query_entities.map pyLower) c.source = true) →
      ∀ c, c ∈ apply_smart_document_filter query_entities chunks ↔
        c ∈ chunks ∧ entity_token_match (query_entities.map pyLower) c.source = true) ∧
    ((∀ c ∈ chunks, entity_token_match (query_entities.map pyLower) c.source = false) →
      apply_smart_document_filter query_entities chunks =
        (if (chunks.filter
              (fun c => entity_token_match (query_entities.map pyLower) c.text)).isEmpty
          then chunks
          else chunks.filter
            (fun c => entity_token_match (query_entities.map pyLower) c.text))) := by
  obtain ⟨hgne, hgsrc, hgmem⟩ := chunks_by_source_spec chunks
  by_cases hce : chunks.isEmpty
  · have hchunks : chunks = [] := List.isEmpty_iff.mp hce
    subst hchunks
    refine ⟨fun h => absurd rfl h, fun _ => rfl, fun hex => absurd hex (by simp), ?_⟩
    intro _
    simp [apply_smart_document_filter]
  · by_cases hqe : query_entities.isEmpty
    · have hq : query_entities = [] := List.isEmpty_iff.mp hqe
      subst hq
      have hval : apply_smart_document_filter [] chunks = chunks := by
        simp [apply_smart_document_filter, hce]
      refine ⟨fun h => by rw [hval]; exact h, fun _ => hval, ?_, ?_⟩
      · intro hex
        obtain ⟨c, -, hm⟩ := hex
        simp [entity_token_match] at hm
      · intro _
        rw [hval]
        have : chunks.filter
            (fun c => entity_token_match (([] : List (List Char)).map pyLower) c.text) = [] := by
          simp [entity_token_match]
        rw [this]
        simp
    · -- main branch: chunks and query entities both non-empty
      have hmainEq : apply_smart_document_filter query_entities chunks =
          (if !(((chunks_by_source chunks).filter
              (fun g => entity_token_match (query_entities.map pyLower) g.1)).isEmpty) then
            ((chunks_by_source chunks).filter
              (fun g => entity_token_match (query_entities.map pyLower) g.1)).flatMap Prod.snd
          else
            if !((chunks.filter
                (fun c => entity_token_match (query_entities.map pyLower) c.text)).isEmpty) then
              chunks.filter (fun c => entity_token_match (query_entities.map pyLower) c.text)
            else chunks) := by
        unfold apply_smart_document_filter
        rw [if_neg (by simpa using hce), if_neg (by simpa using hqe)]
      by_cases hmatch : ((chunks_by_source chunks).filter
          (fun g => entity_token_match (query_entities.map pyLower) g.1)).isEmpty
      · -- no source group matches
        have hnosrc : ∀ c ∈ chunks,
            entity_token_match (query_entities.map pyLower) c.source = false := by
          intro c hc
          obtain ⟨g, hg, hcg⟩ := (hgmem c).mpr hc
          have hsrcg := hgsrc g hg c hcg
          by_contra hmm
          have htrue : entity_token_match (query_entities.map pyLower) c.source = true := by
            cases hval : entity_token_match (query_entities.map pyLower) c.source
            · exact absurd hval hmm
            · rfl
          have : g ∈ (chunks_by_source chunks).filter
              (fun g => entity_token_match (query_entities.map pyLower) g.1) :=
            List.mem_filter.mpr ⟨hg, by rw [← hsrcg]; exact htrue⟩
          rw [List.isEmpty_iff.mp hmatch] at this
          cases this
        have hval2 : apply_smart_document_filter query_entities chunks =
            (if (chunks.filter
                (fun c => entity_token_match (query_entities.map pyLower) c.text)).isEmpty
              then chunks
              else chunks.filter
                (fun c => entity_token_match (query_entities.map pyLower) c.text)) := by
          by_cases hcm : (chunks.filter
              (fun c => entity_token_match (query_entities.map pyLower) c.text)).isEmpty = true
          · rw [hmainEq, hmatch]
            simp [hcm]
          · have hcm2 : (chunks.filter
                (fun c => entity_token_match (query_entities.map pyLower) c.text)).isEmpty =
                  false := by
              simpa using hcm
            rw [hmainEq, hmatch]
            simp [hcm2]
        refine ⟨?_, fun hq => absurd (by simp [hq]) hqe, ?_, fun _ => hval2⟩
        · intro hchne
          rw [hval2]
          split
          · exact hchne
          · next hne2 =>
            intro habs
            rw [habs] at hne2
            simp at hne2
        · intro hex
          obtain ⟨c, hc, hm⟩ := hex
          rw [hnosrc c hc] at hm
          cases hm
      · -- some source group matches
        have hmatchne : (chunks_by_source chunks).filter
            (fun g => entity_token_match (query_entities.map pyLower) g.1) ≠ [] := by
          intro habs
          rw [habs] at hmatch
          simp at hmatch
        have hval3 : apply_smart_document_filter query_entities chunks =
            ((chunks_by_source chunks).filter
              (fun g => entity_token_match (query_entities.map pyLower) g.1)).flatMap
              Prod.snd := by
          rw [hmainEq]
          simp only [hmatch, Bool.not_false, if_true]
        have hiff : ∀ c, c ∈ apply_smart_document_filter query_entities chunks ↔
            c ∈ chunks ∧ entity_token_match (query_entities.map pyLower) c.source = true := by
          intro c
          rw [hval3, List.mem_flatMap]
          constructor
          · rintro ⟨g, hg, hcg⟩
            obtain ⟨hg0, hgm⟩ := List.mem_filter.mp hg
            refine ⟨(hgmem c).mp ⟨g, hg0, hcg⟩, ?_⟩
            rw [hgsrc g hg0 c hcg]
            exact hgm
          · rintro ⟨hc, hm⟩
            obtain ⟨g, hg, hcg⟩ := (hgmem c).mpr hc
            refine ⟨g, List.mem_filter.mpr ⟨hg, ?_⟩, hcg⟩
            rw [← hgsrc g hg c hcg]
            exact hm
        refine ⟨?_, fun hq => absurd (by simp [hq]) hqe, fun _ => hiff, ?_⟩
        · intro _
          obtain ⟨g, hg⟩ := List.exists_mem_of_ne_nil _ hmatchne
          obtain ⟨hg0, -⟩ := List.mem_filter.mp hg
          obtain ⟨c, hc⟩ := List.exists_mem_of_ne_nil _ (hgne g hg0)
          intro habs
          have : c ∈ apply_smart_document_filter query_entities chunks := by
            rw [hval3, List.mem_flatMap]
            exact ⟨g, hg, hc⟩
          rw [habs] at this
          cases this
        · intro hall
          obtain ⟨g, hg⟩ := List.exists_mem_of_ne_nil _ hmatchne
          obtain ⟨hg0, hgm⟩ := List.mem_filter.mp hg
          obtain ⟨c, hc⟩ := List.exists_mem_of_ne_nil _ (hgne g hg0)
          have hcin : c ∈ chunks := (hgmem c).mp ⟨g, hg0, hc⟩
          have := hall c hcin
          rw [hgsrc g hg0 c hc] at this
          rw [this] at hgm
          cases hgm

/-- Concrete chunk from an Obama interview file, for the smart-filter
witness. -/
def witnessChunkObama : RagChunk :=
  { text := ("jobs speech").data, source := ("obama_interview.wav").data }

/-- Concrete chunk from a Trump interview file, for the smart-filter
witness. -/
def witnessChunkTrump : RagChunk :=
  { text := ("economy talk").data, source := ("trump_interview.wav").data }

/-- Witness for `apply_smart_document_filter_spec`: with query entity
"Obama" and two audio chunks, the filter keeps exactly the chunk whose
filename contains the token "obama". -/
theorem apply_smart_document_filter_spec_witness :
    witnessChunkObama ∈
      apply_smart_document_filter [("Obama").data]
        [witnessChunkObama, witnessChunkTrump] ↔
    witnessChunkObama ∈ [witnessChunkObama, witnessChunkTrump] ∧
      entity_token_match ([("Obama").data].map pyLower)
        witnessChunkObama.source = true :=
  (apply_smart_document_filter_spec [("Obama").data]
    [witnessChunkObama, witnessChunkTrump]).2.2.1 (by decide) witnessChunkObama

/-! ## Lexical reranking (`faiss_reranker_service.py`,
`FAISSRerankerService.rerank`, lines 168-230)

The BM25Okapi library computes one lexical score per candidate from the
tokenized corpus; those scores are a parameter `bm25_scores : Nat → ℚ`
(indexed by candidate position).  Python's `sorted(..., reverse=True)`
is a stable sort, embedded as `mergeSort` with the ≥-on-score
relation. -/

/-- A candidate chunk as seen by `rerank`: its text and the upstream
semantic score `chunk.get('faiss_score', 0.5)` (absent when the chunk
came from the graph side). -/
structure RerankChunk where
  text : List Char
  faiss_score : Option ℚ
  deriving DecidableEq

/-- `bm25_normalized = bm25_score / (bm25_score + 1.0) if bm25_score > 0
else 0`. -/
def normalize_bm25 (s : ℚ) : ℚ := if 0 < s then s / (s + 1) else 0

/-- `combined_score = 0.6 * faiss_score + 0.4 * bm25_normalized`, with
`faiss_score` defaulting to 0.5 when missing. -/
def combined_score (bm25_score : ℚ) (c : RerankChunk) : ℚ :=
  6/10 * c.faiss_score.getD (1/2) + 4/10 * normalize_bm25 bm25_score

/-- The scoring loop `for i, chunk in enumerate(candidates)`: attach the
combined score to each candidate, the i-th candidate getting the i-th
BM25 score. -/
def score_candidates (bm25_scores : Nat → ℚ) :
    Nat → List RerankChunk → List (RerankChunk × ℚ)
  | _, [] => []
  | i, c :: rest =>
    (c, combined_score (bm25_scores i) c) :: score_candidates bm25_scores (i + 1) rest

/-- `FAISSRerankerService.rerank` (success path): empty candidates give
an empty result; otherwise score every candidate, sort descending by
combined score (stably) and take the top `top_k`. -/
def rerank (bm25_scores : Nat → ℚ) (candidates : List RerankChunk) (top_k : Nat) :
    List (RerankChunk × ℚ) :=
  if candidates.isEmpty then []
  else ((score_candidates bm25_scores 0 candidates).mergeSort
    (fun a b => decide (b.2 ≤ a.2))).take top_k

/-- The `except` fallback of `rerank`: on an internal error, sort by the
semantic score alone (`chunk.get('faiss_score', 0)`) and take the top
`top_k`. -/
def rerank_error_fallback (candidates : List RerankChunk) (top_k : Nat) :
    List RerankChunk :=
  (candidates.mergeSort
    (fun a b => decide (b.faiss_score.getD 0 ≤ a.faiss_score.getD 0))).take top_k

/-- The scoring loop's output pairs each input candidate with the
combined score at its position. -/
theorem score_candidates_mem (bm25_scores : Nat → ℚ) :
    ∀ (start : Nat) (cs : List RerankChunk) (p : RerankChunk × ℚ),
      p ∈ score_candidates bm25_scores start cs →
      ∃ i, i < cs.length ∧ cs.get? i = some p.1 ∧
        p.2 = combined_score (bm25_scores (start + i)) p.1 := by
  intro start cs
  induction cs generalizing start with
  | nil => intro p hp; cases hp
  | cons c rest ih =>
    intro p hp
    rcases List.mem_cons.mp hp with hp | hp
    · subst hp
      exact ⟨0, by simp, by simp, by simp⟩
    · obtain ⟨i, hi, hget, hscore⟩ := ih (start + 1) p hp
      refine ⟨i + 1, by simpa using Nat.succ_lt_succ hi, by simpa using hget, ?_⟩
      rw [hscore]
      ring_nf

/-- The scoring loop scores every candidate: lengths agree. -/
theorem score_candidates_length (bm25_scores : Nat → ℚ) :
    ∀ (start : Nat) (cs : List RerankChunk),
      (score_candidates bm25_scores start cs).length = cs.length := by
  intro start cs
  induction cs generalizing start with
  | nil => rfl
  | cons c rest ih => simp [score_candidates, ih]

/-- C3: `rerank` maps each candidate to the combined score
`0.6·semantic + 0.4·(s/(s+1))` (lexical part 0 when `s ≤ 0`, semantic
defaulting to 0.5), returns a descending-by-score list of exactly
`min top_k |candidates|` entries each of which is an input candidate
with its own combined score; an empty candidate list gives an empty
result; the error fallback returns `min top_k |candidates|` input
candidates ordered by semantic score alone. -/
theorem rerank_spec (bm25_scores : Nat → ℚ) (candidates : List RerankChunk)
    (top_k : Nat) :
    rerank bm25_scores [] top_k = [] ∧
    (∀ s : ℚ, s ≤ 0 → normalize_bm25 s = 0) ∧
    (∀ s : ℚ, 0 < s → normalize_bm25 s = s / (s + 1)) ∧
    (rerank bm25_scores candidates top_k).length = min top_k candidates.length ∧
    List.Pairwise (fun a b => b.2 ≤ a.2) (rerank bm25_scores candidates top_k) ∧
    (∀ p ∈ rerank bm25_scores candidates top_k,
      ∃ i, i < candidates.length ∧ candidates.get? i = some p.1 ∧
        p.2 = combined_score (bm25_scores i) p.1) ∧
    (rerank_error_fallback candidates top_k).length = min top_k candidates.length ∧
    List.Pairwise
      (fun a b => b.faiss_score.getD 0 ≤ a.faiss_score.getD 0)
      (rerank_error_fallback candidates top_k) ∧
    (∀ c ∈ rerank_error_fallback candidates top_k, c ∈ candidates) := by
  have htrans : ∀ (a b c : RerankChunk × ℚ),
      decide (b.2 ≤ a.2) = true → decide (c.2 ≤ b.2) = true →
      decide (c.2 ≤ a.2) = true := by
    intro a b c hab hbc
    exact decide_eq_true (le_trans (of_decide_eq_true hbc) (of_decide_eq_true hab))
  have htotal : ∀ (a b : RerankChunk × ℚ),
      (decide (b.2 ≤ a.2) || decide (a.2 ≤ b.2)) = true := by
    intro a b
    rcases le_total a.2 b.2 with h | h <;> simp [h]
  have htrans2 : ∀ (a b c : RerankChunk),
      decide (b.faiss_score.getD 0 ≤ a.faiss_score.getD 0) = true →
      decide (c.faiss_score.getD 0 ≤ b.faiss_score.getD 0) = true →
      decide (c.faiss_score.getD 0 ≤ a.faiss_score.getD 0) = true := by
    intro a b c hab hbc
    exact decide_eq_true (le_trans (of_decide_eq_true hbc) (of_decide_eq_true hab))
  have htotal2 : ∀ (a b : RerankChunk),
      (decide (b.faiss_score.getD 0 ≤ a.faiss_score.getD 0) ||
        decide (a.faiss_score.getD 0 ≤ b.faiss_score.getD 0)) = true := by
    intro a b
    rcases le_total (a.faiss_score.getD 0) (b.faiss_score.getD 0) with h | h <;> simp [h]
  refine ⟨rfl, ?_, ?_, ?_, ?_, ?_, ?_, ?_, ?_⟩
  · intro s hs
    simp [normalize_bm25, not_lt.mpr hs]
  · intro s hs
    simp [normalize_bm25, hs]
  · by_cases hc : candidates.isEmpty
    · have : candidates = [] := List.isEmpty_iff.mp hc
      subst this
      simp [rerank]
    · simp [rerank, hc, List.length_take, List.length_mergeSort,
        score_candidates_length]
  · by_cases hc : candidates.isEmpty
    · have : candidates = [] := List.isEmpty_iff.mp hc
      subst this
      simp [rerank]
    · have hsorted := List.sorted_mergeSort htrans htotal
        (score_candidates bm25_scores 0 candidates)
      have h2 := List.Pairwise.sublist (List.take_sublist top_k _) hsorted
      simpa [rerank, hc] using h2
  · intro p hp
    by_cases hc : candidates.isEmpty
    · have : candidates = [] := List.isEmpty_iff.mp hc
      subst this
      simp [rerank] at hp
    · simp only [rerank, hc, Bool.false_eq_true, if_false] at hp
      have hp2 := List.Sublist.mem hp (List.take_sublist top_k _)
      have hp3 := (List.mergeSort_perm
        (score_candidates bm25_scores 0 candidates) _).mem_iff.mp hp2
      obtain ⟨i, hi, hget, hscore⟩ := score_candidates_mem bm25_scores 0 candidates p hp3
      exact ⟨i, hi, hget, by simpa using hscore⟩
  · simp [rerank_error_fallback, List.length_take, List.length_mergeSort]
  · have hsorted := List.sorted_mergeSort htrans2 htotal2 candidates
    have h2 := List.Pairwise.sublist (List.take_sublist top_k _) hsorted
    simpa [rerank_error_fallback] using h2
  · intro c hc
    have hc2 := List.Sublist.mem hc (List.take_sublist top_k _)
    exact (List.mergeSort_perm candidates _).mem_iff.mp hc2

/-- Witness for `rerank_spec`: with one high-semantic candidate and one
zero-scored candidate the reranker returns both, the high-scoring one
first with the claimed combined score. -/
theorem rerank_spec_witness :
    normalize_bm25 (-1 : ℚ) = 0 ∧ normalize_bm25 (1 : ℚ) = 1 / (1 + 1) ∧
    (rerank (fun _ => (0 : ℚ))
      [{ text := ("alpha").data, faiss_score := some 1 }] 5).length =
      min 5 1 := by
  have h := rerank_spec (fun _ => (0 : ℚ))
    [{ text := ("alpha").data, faiss_score := some 1 }] 5
  exact ⟨h.2.1 (-1) (by norm_num), h.2.2.1 1 (by norm_num), h.2.2.2.1⟩

/-! ## Audio chunk timestamps (`document_processor.py`,
`DocumentProcessor._chunk_text_with_timestamps`, lines 266-324)

The Whisper transcription segments and the SentenceSplitter nodes are
external inputs, modelled as parameters.  Each chunk gets a time range:
from the first/last textually-matching segment when one exists,
otherwise estimated as `start = (chunk_start/len(text))·duration`,
`end = start + 30`. -/

/-- A Whisper transcription segment: the `start`, `end` and `text` keys
read by the chunker (`stop` embeds the `end` key; `end` is reserved in
Lean). -/
structure TranscriptSegment where
  start : ℚ
  stop : ℚ
  text : List Char
  deriving DecidableEq

/-- A node produced by the sentence splitter: content and character
interval. -/
structure TextNode where
  text : List Char
  start_char_idx : Nat
  end_char_idx : Nat
  deriving DecidableEq

/-- The audio citation attached to a chunk. -/
structure AudioCitation where
  start_time : ℚ
  end_time : ℚ
  timestamp : List Char
  timestamp_range : List Char
  deriving DecidableEq

/-- A chunk produced by `_chunk_text_with_timestamps`. -/
structure AudioChunk where
  chunk_id : Nat
  text : List Char
  start_idx : Nat
  end_idx : Nat
  citation : AudioCitation
  deriving DecidableEq

/-- Zero-padded two-digit rendering (`{:02d}`). -/
def pad2 (n : Nat) : List Char :=
  if n < 10 then '0' :: Nat.toDigits 10 n else Nat.toDigits 10 n

/-- `DocumentProcessor._format_timestamp`: seconds to `MM:SS` or
`HH:MM:SS`. -/
def format_timestamp (seconds : ℚ) : List Char :=
  let hours := (Rat.floor (seconds / 3600)).toNat
  let minutes := (Rat.floor ((seconds - 3600 * Rat.floor (seconds / 3600)) / 60)).toNat
  let secs := (Rat.floor (seconds - 60 * Rat.floor (seconds / 60))).toNat
  if 0 < hours then pad2 hours ++ [':'] ++ pad2 minutes ++ [':'] ++ pad2 secs
  else pad2 minutes ++ [':'] ++ pad2 secs

/-- `segments[-1].get("end", 0) if segments else 0`: the document
duration used by `_process_audio` and by the chunker's fallback. -/
def audio_duration (segments : List TranscriptSegment) : ℚ :=
  match segments with
  | [] => 0
  | s :: rest => (rest.getLastD s).stop

/-- The chunk/segment overlap test:
`seg_text.strip() in chunk_text or chunk_text in seg_text`. -/
def segment_matches_chunk (s : TranscriptSegment) (chunk_text : List Char) : Bool :=
  containsSub chunk_text (pyStrip s.text) || containsSub s.text chunk_text

/-- The `for i, node in enumerate(nodes)` loop of
`_chunk_text_with_timestamps`: each node becomes a chunk whose time
range comes from the first and last matching segments, or from the
position-ratio estimate plus 30 seconds when no segment matches. -/
def chunk_nodes_with_timestamps (text : List Char)
    (segments : List TranscriptSegment) :
    Nat → List TextNode → List AudioChunk
  | _, [] => []
  | i, node :: rest =>
    let relevant := segments.filter (fun s => segment_matches_chunk s node.text)
    let times : ℚ × ℚ :=
      match relevant with
      | [] =>
        let ratio : ℚ :=
          if 0 < text.length then (node.start_char_idx : ℚ) / (text.length : ℚ)
          else 0
        let start_time := ratio * audio_duration segments
        (start_time, start_time + 30)
      | r :: rs => (r.start, (rs.getLastD r).stop)
    { chunk_id := i
      text := node.text
      start_idx := node.start_char_idx
      end_idx := node.end_char_idx
      citation :=
        { start_time := times.1
          end_time := times.2
          timestamp := format_timestamp times.1
          timestamp_range :=
            format_timestamp times.1 ++ (" - ").data ++ format_timestamp times.2 } }
      :: chunk_nodes_with_timestamps text segments (i + 1) rest

/-- `DocumentProcessor._chunk_text_with_timestamps`: empty or
whitespace-only input yields no chunks; otherwise chunk every splitter
node. -/
def chunk_text_with_timestamps (text : List Char)
    (segments : List TranscriptSegment) (nodes : List TextNode) :
    List AudioChunk :=
  if pyStrip text = [] then [] else chunk_nodes_with_timestamps text segments 0 nodes

/-- Concrete transcription segment for the C5 counterexample: the audio
lasts 5 seconds and the segment text shares nothing with the chunk. -/
def cxSegment : TranscriptSegment :=
  { start := 0, stop := 5, text := ("xyzzyqwerty").data }

/-- Concrete splitter node for the C5 counterexample: the whole
11-character transcription. -/
def cxNode : TextNode :=
  { text := ("hello world").data, start_char_idx := 0, end_char_idx := 11 }

/-- C5 counterexample: on the transcription "hello world" with a single
5-second segment whose text does not overlap the chunk, the produced
chunk's citation has `start_time = 0` and `end_time = 30` (the
position-ratio fallback adds a flat 30 seconds), while the document
duration — the end of the last segment — is 5, so
`end_time ≤ duration` fails. -/
theorem audio_chunk_end_time_counterexample :
    (chunk_text_with_timestamps ("hello world").data [cxSegment] [cxNode]).map
      (fun c => (c.citation.start_time, c.citation.end_time)) = [(0, 30)] ∧
    audio_duration [cxSegment] = 5 ∧
    ¬((30 : ℚ) ≤ 5) := by
  have hts : ¬(pyStrip ("hello world").data = []) := by decide
  have hm : segment_matches_chunk cxSegment cxNode.text = false := by decide
  refine ⟨?_, by norm_num [audio_duration, cxSegment], by norm_num⟩
  unfold chunk_text_with_timestamps
  rw [if_neg hts]
  simp only [chunk_nodes_with_timestamps, List.filter_cons, hm,
    Bool.false_eq_true, if_false, List.filter_nil, List.map_cons, List.map_nil]
  norm_num [cxNode, audio_duration, cxSegment]

/-- `getLastD` returns the fallback or a member of the list. -/
theorem getLastD_mem {α : Type} (l : List α) (a : α) : l.getLastD a ∈ a :: l := by
  induction l generalizing a with
  | nil => simp
  | cons b t ih =>
    rw [List.getLastD_cons]
    rcases List.mem_cons.mp (ih b) with h | h
    · rw [h]
      exact List.mem_cons_of_mem _ (List.mem_cons_self _ _)
    · exact List.mem_cons_of_mem _ (List.mem_cons_of_mem _ h)

/-- In a segment list sorted by start and end times, every segment ends
no later than the last one. -/
theorem stop_le_getLastD (tl : List TranscriptSegment) :
    ∀ (hd : TranscriptSegment),
      List.Pairwise (fun a b => a.start ≤ b.start ∧ a.stop ≤ b.stop) (hd :: tl) →
      ∀ s ∈ hd :: tl, s.stop ≤ (tl.getLastD hd).stop := by
  induction tl with
  | nil =>
    intro hd _ s hs
    rw [List.mem_singleton] at hs
    subst hs
    simp
  | cons b t ih =>
    intro hd hpw s hs
    have hpw2 := (List.pairwise_cons.mp hpw).2
    have hhd := (List.pairwise_cons.mp hpw).1 b (List.mem_cons_self _ _)
    rw [List.getLastD_cons]
    rcases List.mem_cons.mp hs with hs | hs
    · subst hs
      exact le_trans hhd.2 (ih b hpw2 b (List.mem_cons_self _ _))
    · exact ih b hpw2 s hs

/-- Every segment ends no later than the document duration. -/
theorem stop_le_audio_duration (segments : List TranscriptSegment)
    (hsorted : List.Pairwise (fun a b => a.start ≤ b.start ∧ a.stop ≤ b.stop)
      segments) :
    ∀ s ∈ segments, s.stop ≤ audio_duration segments := by
  cases segments with
  | nil => intro s hs; cases hs
  | cons hd tl => exact stop_le_getLastD tl hd hsorted

/-- C5 amended: for well-formed, time-ordered Whisper segments
(non-negative starts, `start ≤ end` per segment, starts and ends
non-decreasing along the list) and splitter nodes starting inside the
text, every chunk of an audio transcription satisfies
`0 ≤ start_time ≤ end_time ≤ duration + 30`; and `end_time ≤ duration`
whenever some segment textually matches the chunk.  (The claimed bound
`end_time ≤ duration` fails only in the no-matching-segment fallback,
which uses `end_time = start_time + 30`.) -/
theorem audio_chunk_citation_bounds (text : List Char)
    (segments : List TranscriptSegment) (nodes : List TextNode)
    (hseg : ∀ s ∈ segments, 0 ≤ s.start ∧ s.start ≤ s.stop)
    (hsorted : List.Pairwise (fun a b => a.start ≤ b.start ∧ a.stop ≤ b.stop)
      segments)
    (hnodes : ∀ nd ∈ nodes, nd.start_char_idx ≤ text.length) :
    ∀ c ∈ chunk_text_with_timestamps text segments nodes,
      0 ≤ c.citation.start_time ∧
      c.citation.start_time ≤ c.citation.end_time ∧
      c.citation.end_time ≤ audio_duration segments + 30 ∧
      ((∃ s ∈ segments, segment_matches_chunk s c.text = true) →
        c.citation.end_time ≤ audio_duration segments) := by
  have hdur : 0 ≤ audio_duration segments := by
    cases hsegs : segments with
    | nil => simp [audio_duration]
    | cons hd tl =>
      have hmem : tl.getLastD hd ∈ hd :: tl := getLastD_mem tl hd
      rw [← hsegs] at hmem
      have h := hseg _ hmem
      simpa [audio_duration, hsegs] using le_trans h.1 h.2
  have key : ∀ (i : Nat) (nds : List TextNode),
      (∀ nd ∈ nds, nd.start_char_idx ≤ text.length) →
      ∀ c ∈ chunk_nodes_with_timestamps text segments i nds,
        0 ≤ c.citation.start_time ∧
        c.citation.start_time ≤ c.citation.end_time ∧
        c.citation.end_time ≤ audio_duration segments + 30 ∧
        ((∃ s ∈ segments, segment_matches_chunk s c.text = true) →
          c.citation.end_time ≤ audio_duration segments) := by
    intro i nds
    induction nds generalizing i with
    | nil => intro _ c hc; cases hc
    | cons node rest ih =>
      intro hnd c hc
      rw [chunk_nodes_with_timestamps] at hc
      rcases List.mem_cons.mp hc with hc | hc
      · subst hc
        rcases hrel : segments.filter
            (fun s => segment_matches_chunk s node.text) with _ | ⟨r, rs⟩
        · -- fallback: no matching segment
          have hnomatch : ∀ s ∈ segments, ¬segment_matches_chunk s node.text = true := by
            intro s hs
            exact (List.filter_eq_nil_iff.mp hrel) s hs
          have hratio0 : (0 : ℚ) ≤
              (if 0 < text.length then (node.start_char_idx : ℚ) / (text.length : ℚ)
                else 0) := by
            split
            · positivity
            · exact le_refl 0
          have hratio1 :
              (if 0 < text.length then (node.start_char_idx : ℚ) / (text.length : ℚ)
                else 0) ≤ 1 := by
            split
            · next hlen =>
              rw [div_le_one (by exact_mod_cast hlen)]
              exact_mod_cast hnd node (List.mem_cons_self _ _)
            · norm_num
          have hstart0 : (0 : ℚ) ≤
              (if 0 < text.length then (node.start_char_idx : ℚ) / (text.length : ℚ)
                else 0) * audio_duration segments := mul_nonneg hratio0 hdur
          have hstartdur :
              (if 0 < text.length then (node.start_char_idx : ℚ) / (text.length : ℚ)
                else 0) * audio_duration segments ≤ audio_duration segments := by
            calc _ ≤ 1 * audio_duration segments :=
                  mul_le_mul_of_nonneg_right hratio1 hdur
              _ = audio_duration segments := one_mul _
          simp only [hrel]
          refine ⟨hstart0, by linarith, by linarith, ?_⟩
          rintro ⟨s, hs, hm⟩
          exact absurd hm (hnomatch s hs)
        · -- matched: first and last matching segments bound the range
          have hsubl : (r :: rs).Sublist segments := by
            rw [← hrel]
            exact List.filter_sublist segments
          have hrmem : r ∈ segments :=
            List.Sublist.mem (List.mem_cons_self _ _) hsubl
          have hlastrel : rs.getLastD r ∈ r :: rs := getLastD_mem rs r
          have hlastmem : rs.getLastD r ∈ segments :=
            List.Sublist.mem hlastrel hsubl
          have hpwrel : List.Pairwise
              (fun a b => a.start ≤ b.start ∧ a.stop ≤ b.stop) (r :: rs) :=
            List.Pairwise.sublist hsubl hsorted
          have hstartstop : r.start ≤ (rs.getLastD r).stop := by
            rcases List.mem_cons.mp hlastrel with h | h
            · rw [h]
              exact (hseg r hrmem).2
            · have hrb := (List.pairwise_cons.mp hpwrel).1 _ h
              exact le_trans hrb.1 (hseg _ hlastmem).2
          have hstopdur : (rs.getLastD r).stop ≤ audio_duration segments :=
            stop_le_audio_duration segments hsorted _ hlastmem
          simp only [hrel]
          exact ⟨(hseg r hrmem).1, hstartstop,
            le_trans hstopdur (by linarith), fun _ => hstopdur⟩
      · exact ih (i + 1) (fun nd hnd2 => hnd nd (List.mem_cons_of_mem _ hnd2)) c hc
  intro c hc
  rw [chunk_text_with_timestamps] at hc
  split at hc
  · cases hc
  · exact key 0 nodes hnodes c hc

/-- Concrete matching segment for the C5 witness: "hello" occurs in the
chunk text. -/
def wSegment : TranscriptSegment :=
  { start := 0, stop := 5, text := ("hello").data }

/-- The chunk produced for the C5 witness input. -/
def wChunk : AudioChunk :=
  { chunk_id := 0
    text := ("hello world").data
    start_idx := 0
    end_idx := 11
    citation :=
      { start_time := 0
        end_time := 5
        timestamp := format_timestamp 0
        timestamp_range :=
          format_timestamp 0 ++ (" - ").data ++ format_timestamp 5 } }

/-- Witness for `audio_chunk_citation_bounds`: on the transcription
"hello world" with one matching 5-second segment, the produced chunk's
citation satisfies all the proved bounds. -/
theorem audio_chunk_citation_bounds_witness :
    0 ≤ wChunk.citation.start_time ∧
    wChunk.citation.start_time ≤ wChunk.citation.end_time ∧
    wChunk.citation.end_time ≤ audio_duration [wSegment] + 30 ∧
    ((∃ s ∈ [wSegment], segment_matches_chunk s wChunk.text = true) →
      wChunk.citation.end_time ≤ audio_duration [wSegment]) := by
  have hts : ¬(pyStrip ("hello world").data = []) := by decide
  have hm : segment_matches_chunk wSegment cxNode.text = true := by decide
  have hlist : chunk_text_with_timestamps ("hello world").data [wSegment] [cxNode] =
      [wChunk] := by
    unfold chunk_text_with_timestamps
    rw [if_neg hts]
    simp only [chunk_nodes_with_timestamps, List.filter_cons, hm, if_true,
      List.filter_nil]
    simp [wChunk, wSegment, cxNode]
  exact audio_chunk_citation_bounds ("hello world").data [wSegment] [cxNode]
    (by norm_num [wSegment]) (by simp) (by simp [cxNode]) wChunk
    (by rw [hlist]; exact List.mem_cons_self _ _)

end SupaQuery
